import Mathlib

/-!
Verification of the self-correcting LaTeX compilation pipeline
(`Latex Compiler/compiler.py`): the document repair engine
(`LatexAutoFixer`), the bounded-retry orchestrator
(`CompilationWorker.run`), the draft-mode outcome decision of
`CompilationWorker._compile`, and the facade state update
(`LatexCompiler._on_finished`).

Documents are embedded as lists of characters (`Str`).  Python string
and regex primitives used by the source are translated into structural
recursions on `Str`:

* `s.count(pat)`        -> `countSub pat s` (non-overlapping, left to right)
* `pat in s`            -> `containsB pat s`
* `s.replace(pat, r)`   -> `replaceAll pat r s` (all occurrences, left to right)
* `s.rfind(c)` + delete -> `removeLastRB s` (for the closing-brace removal)
* `re.split(r'(\\begin\x7blstlisting\x7d.*?\\end\x7blstlisting\x7d)', s, DOTALL)`
  used only to count braces outside the matched regions
                        -> `bracesOutside s` (a scanner: a region starts at an
                           occurrence of the begin marker that is followed by an
                           occurrence of the end marker; the region extends to the
                           first such end marker; text not inside a region is
                           counted.  This is exactly which characters fall in the
                           odd (captured) positions of the Python split.)
* `re.finditer(r'\\begin\x7b(\w+)\x7d', s)` (and the end variant)
                        -> `envScan pre s` (non-overlapping scan; a match is the
                           literal prefix, a maximal nonempty run of word
                           characters, then a closing brace)
* `re.search(r"File ...(.+?)...not found", log)` and
  `re.search(r"Environment (.+?) undefined", log)`
                        -> `searchCapture pre post log` (leftmost position where
                           the literal prefix matches, then the shortest nonempty
                           newline-free capture followed by the literal suffix)
* the pattern of `fix_package_not_found` (line 216) splices the captured
  package name into the regex unescaped: for names free of regex
  metacharacters the pattern matches literally (`matchUsepkgAt`); a name that
  makes the pattern invalid raises `re.error` out of `run()` instead.  The
  raise side is modelled by `pkgPatternRaises` / `repairRaises` and the
  raise-aware worker `runLoopE` / `runWorkerE`, whose `finish = none` records
  a run killed before the terminal emission.

Skip-state recursions (an extra `Nat` argument counting characters that
are part of an already-matched region) are used so that every function
is structurally recursive and evaluates by `decide`.
-/

set_option maxRecDepth 8192

abbrev Str := List Char

/-- `startsWith p s` : `p` is a prefix of `s` (Python `s.startswith(p)`). -/
def startsWith : Str → Str → Bool
  | [], _ => true
  | _ :: _, [] => false
  | a :: p, b :: s => a = b && startsWith p s

/-- `containsB p s` : `p` occurs as a contiguous substring of `s` (Python `p in s`). -/
def containsB (p : Str) : Str → Bool
  | [] => startsWith p []
  | c :: s => startsWith p (c :: s) || containsB p s

/-- Auxiliary for `countSub`: `skip` characters of an already-counted match remain. -/
def countAux (p : Str) : Nat → Str → Nat
  | _, [] => 0
  | k + 1, _ :: s => countAux p k s
  | 0, c :: s =>
    if startsWith p (c :: s) then countAux p (p.length - 1) s + 1
    else countAux p 0 s

/-- Python `s.count(p)`: number of non-overlapping occurrences, scanning left to right. -/
def countSub (p s : Str) : Nat := countAux p 0 s

/-- Auxiliary for `replaceAll`: `skip` characters of an already-replaced match remain. -/
def replAux (p r : Str) : Nat → Str → Str
  | _, [] => []
  | k + 1, _ :: s => replAux p r k s
  | 0, c :: s =>
    if startsWith p (c :: s) then r ++ replAux p r (p.length - 1) s
    else c :: replAux p r 0 s

/-- Python `s.replace(p, r)`: replace all non-overlapping occurrences, left to right. -/
def replaceAll (p r s : Str) : Str := replAux p r 0 s

/-- Index of the first occurrence of `p` in `s`, if any. -/
def idxOf (p : Str) : Str → Option Nat
  | [] => if startsWith p [] then some 0 else none
  | c :: s =>
    if startsWith p (c :: s) then some 0
    else (idxOf p s).map (· + 1)

/-- Python `\w` on ASCII input: letters, digits and underscore. -/
def isWordChar (c : Char) : Bool := c.isAlpha || c.isDigit || c = '_'

/-- Python `str.strip()` whitespace set (ASCII). -/
def isPySpace (c : Char) : Bool :=
  c = ' ' || c = '\t' || c = '\n' || c = '\r' || c = '\x0b' || c = '\x0c'

/-- Python `line.strip()`. -/
def stripPy (s : Str) : Str :=
  ((s.dropWhile isPySpace).reverse.dropWhile isPySpace).reverse

/-- Python `s.split('\n')`, as (first line, remaining lines). -/
def splitNlAux : Str → Str × List Str
  | [] => ([], [])
  | c :: s =>
    let r := splitNlAux s
    if c = '\n' then ([], r.1 :: r.2) else (c :: r.1, r.2)

/-- Python `s.split('\n')`. -/
def splitNl (s : Str) : List Str := (splitNlAux s).1 :: (splitNlAux s).2

/-- Python `'\n'.flatten(lines)`. -/
def joinNl : List Str → Str
  | [] => []
  | [l] => l
  | l :: ls => l ++ '\n' :: joinNl ls

/-- Python `lines.insert(n, x)` (clamps at the end, as `list.insert` does). -/
def insertAt (n : Nat) (x : α) : List α → List α
  | [] => [x]
  | a :: l =>
    match n with
    | 0 => x :: a :: l
    | m + 1 => a :: insertAt m x l

/-! ### Fixed markers used by the source -/

/-- `\end{document}` -/
def docEnd : Str := "\\end{document}".data

/-- `\documentclass` -/
def docClassTok : Str := "\\documentclass".data

/-- `\begin{document}` -/
def beginDocTok : Str := "\\begin{document}".data

/-- `\begin{lstlisting}` -/
def begLst : Str := "\\begin{lstlisting}".data

/-- `\end{lstlisting}` -/
def endLst : Str := "\\end{lstlisting}".data

/-- `\begin{` (the literal part of the begin-environment regex) -/
def beginTok : Str := "\\begin".data ++ ['\x7b']

/-- `\end{` (the literal part of the end-environment regex) -/
def endTok : Str := "\\end".data ++ ['\x7b']

/-- Scanner for brace counting outside `lstlisting` regions (lines 133-140 of
`compiler.py`).  State `skip > 0` means that many characters of the current
excluded region remain.  At skip `0`, a region starts iff the begin marker is a
prefix here and the end marker occurs somewhere after it; the region runs to the
first such end marker.  If a begin marker has no later end marker, no further
region can match (any later end marker would also serve this begin marker), so
the whole remainder is counted.  Returns (open braces, close braces) outside
regions. -/
def bracesAux : Nat → Str → Nat × Nat
  | _, [] => (0, 0)
  | k + 1, _ :: s => bracesAux k s
  | 0, c :: s =>
    if startsWith begLst (c :: s) then
      match idxOf endLst (s.drop (begLst.length - 1)) with
      | some i => bracesAux (begLst.length - 1 + i + endLst.length) s
      | none => ((c :: s).count '{', (c :: s).count '}')
    else
      let r := bracesAux 0 s
      (r.1 + (if c = '{' then 1 else 0), r.2 + (if c = '}' then 1 else 0))

/-- Open/close brace counts outside `lstlisting` regions. -/
def bracesOutside (s : Str) : Nat × Nat := bracesAux 0 s

/-- `re.finditer` for `pre` + `(\w+)` + closing brace: list of captures in
document order, non-overlapping. -/
def envScanAux (pre : Str) : Nat → Str → List Str
  | _, [] => []
  | k + 1, _ :: s => envScanAux pre k s
  | 0, c :: s =>
    if startsWith pre (c :: s) then
      let t := s.drop (pre.length - 1)
      let w := t.takeWhile isWordChar
      if w.length > 0 && startsWith ['}'] (t.drop w.length) then
        w :: envScanAux pre (pre.length - 1 + w.length + 1) s
      else envScanAux pre 0 s
    else envScanAux pre 0 s

/-- Captures of `\begin{(\w+)}` (resp. `\end{(\w+)}`) in document order. -/
def envScan (pre : Str) (s : Str) : List Str := envScanAux pre 0 s

/-- Shortest nonempty newline-free capture followed by `post`, at the start of `s`. -/
def findMinCapture (post : Str) : Str → Option Str
  | [] => none
  | c :: s =>
    if c = '\n' then none
    else if startsWith post s then some [c]
    else (findMinCapture post s).map (fun w => c :: w)

/-- Python `re.search(pre + "(.+?)" + post, log)` for literal `pre`/`post`:
the capture at the leftmost position where the whole pattern matches. -/
def searchCapture (pre post : Str) : Str → Option Str
  | [] => none
  | c :: s =>
    if startsWith pre (c :: s) then
      match findMinCapture post ((c :: s).drop pre.length) with
      | some w => some w
      | none => searchCapture pre post s
    else searchCapture pre post s

/-- `re.search(r"File ` + "`" + `(.+?)\.sty' not found", log)`, the captured package name. -/
def searchPkgMissing (log : Str) : Option Str :=
  searchCapture ("File ".data ++ [Char.ofNat 96]) (".sty".data ++ Char.ofNat 39 :: " not found".data) log

/-- `re.search(r"Environment (.+?) undefined", log)`, the captured environment name. -/
def searchEnvUndefined (log : Str) : Option Str :=
  searchCapture ("Environment ".data) (" undefined".data) log

/-! ### The repair engine (`LatexAutoFixer`) -/

/-- End-marker pass of `fix_truncated_document` (lines 36-38): every end marker,
in document order, pops the stack iff the stack is nonempty and the marker's
kind equals the top (the stack holds the kinds of all begin markers, most
recent first). -/
def processEnds : List Str → List Str → List Str
  | stack, [] => stack
  | [], _ :: es => processEnds [] es
  | h :: t, e :: es => if e = h then processEnds t es else processEnds (h :: t) es

/-- Remove the first closing brace, if any. -/
def dropFirstRB : Str → Str
  | [] => []
  | c :: s => if c = '}' then s else c :: dropFirstRB s

/-- `code.rfind('}')` + removal of that character (lines 154-156); the string is
unchanged when it has no closing brace. -/
def removeLastRB (s : Str) : Str := (dropFirstRB s.reverse).reverse

/-- The removal loop of lines 153-156, `n` iterations. -/
def removeLastRBs : Nat → Str → Str
  | 0, s => s
  | n + 1, s => removeLastRBs n (removeLastRB s)

namespace LatexAutoFixer

/-- Lines 23-48 (`fix_truncated_document`): if the terminal marker is absent,
push the kinds of all begin markers (first regex loop), pop per end marker when
it equals the top (second loop), then close the remaining environments in
reverse order and append the terminal marker. -/
def fix_truncated_document (code : Str) : Str × List Str :=
  if containsB docEnd code then (code, [])
  else
    let opens := processEnds (envScan beginTok code).reverse (envScan endTok code)
    (code ++ (opens.map (fun env => '\n' :: endTok ++ env ++ ['\x7d'])).flatten ++ '\n' :: docEnd,
     opens.map (fun env => "Closed unclosed environment: ".data ++ env) ++
       ["Added missing \\end{document}".data])

/-- Lines 51-64 (`fix_lstlisting_issues`). -/
def fix_lstlisting_issues (code : Str) : Str × List Str :=
  if countSub begLst code > countSub endLst code then
    let d := countSub begLst code - countSub endLst code
    (code ++ (List.replicate d ('\n' :: endLst)).flatten,
     [("Closed ".data ++ Nat.toDigits 10 d) ++ " unclosed lstlisting environment(s)".data])
  else (code, [])

/-- `\begin{tabularx}` -/
def begTabx : Str := "\\begin{tabularx}".data

/-- `\end{tabularx}` -/
def endTabx : Str := "\\end{tabularx}".data

/-- `\begin{longtable}` -/
def begLong : Str := "\\begin{longtable}".data

/-- `\end{longtable}` -/
def endLong : Str := "\\end{longtable}".data

/-- `\begin{description}` -/
def begDesc : Str := "\\begin{description}".data

/-- `\end{description}` -/
def endDesc : Str := "\\end{description}".data

/-- `\begin{multicols}` -/
def begMulti : Str := "\\begin{multicols}".data

/-- `\end{multicols}` -/
def endMulti : Str := "\\end{multicols}".data

/-- Lines 88-110 (`fix_tabularx_issues`): tabularx then longtable, counting the
longtable markers on the already-extended text. -/
def fix_tabularx_issues (code : Str) : Str × List Str :=
  let r1 :=
    if countSub begTabx code > countSub endTabx code then
      let d := countSub begTabx code - countSub endTabx code
      (code ++ (List.replicate d ('\n' :: endTabx)).flatten,
       [("Closed ".data ++ Nat.toDigits 10 d) ++ " unclosed tabularx environment(s)".data])
    else (code, ([] : List Str))
  if countSub begLong r1.1 > countSub endLong r1.1 then
    let d := countSub begLong r1.1 - countSub endLong r1.1
    (r1.1 ++ (List.replicate d ('\n' :: endLong)).flatten,
     r1.2 ++ [("Closed ".data ++ Nat.toDigits 10 d) ++ " unclosed longtable environment(s)".data])
  else r1

/-- Lines 113-125 (`fix_description_issues`). -/
def fix_description_issues (code : Str) : Str × List Str :=
  if countSub begDesc code > countSub endDesc code then
    let d := countSub begDesc code - countSub endDesc code
    (code ++ (List.replicate d ('\n' :: endDesc)).flatten,
     [("Closed ".data ++ Nat.toDigits 10 d) ++ " unclosed description environment(s)".data])
  else (code, [])

/-- Lines 162-174 (`fix_multicol_issues`). -/
def fix_multicol_issues (code : Str) : Str × List Str :=
  if countSub begMulti code > countSub endMulti code then
    let d := countSub begMulti code - countSub endMulti code
    (code ++ (List.replicate d ('\n' :: endMulti)).flatten,
     [("Closed ".data ++ Nat.toDigits 10 d) ++ " unclosed multicols environment(s)".data])
  else (code, [])

/-- Lines 128-159 (`fix_brace_imbalance`): count braces outside `lstlisting`
regions; if opens exceed closes, insert the difference of closing braces before
`\end{document}` (`str.replace`, so before every occurrence) or append at the
end when the marker is absent; if closes exceed opens, repeatedly delete the
last closing brace of the whole text. -/
def fix_brace_imbalance (code : Str) : Str × List Str :=
  let oc := bracesOutside code
  if oc.1 > oc.2 then
    let d := oc.1 - oc.2
    let code1 :=
      if containsB docEnd code then
        replaceAll docEnd (List.replicate d '}' ++ '\n' :: docEnd) code
      else code ++ List.replicate d '}'
    (code1, [("Added ".data ++ Nat.toDigits 10 d) ++ " missing closing brace(s)".data])
  else if oc.2 > oc.1 then
    let d := oc.2 - oc.1
    (removeLastRBs d code,
     [("Removed ".data ++ Nat.toDigits 10 d) ++ " extra closing brace(s)".data])
  else (code, [])

/-- The preamble directive allow-list of lines 191-203. -/
def preambleToks : List Str :=
  [docClassTok, "\\usepackage".data, "\\title".data, "\\author".data, "\\date".data,
   "\\newcommand".data, "\\definecolor".data, "\\lstdefinestyle".data, "\\pagestyle".data,
   "\\fancyhf".data, "\\rhead".data, "\\lhead".data, "\\rfoot".data]

/-- A line whose stripped form starts with one of the preamble directives. -/
def isPreambleLine (l : Str) : Bool :=
  preambleToks.any (fun p => startsWith p (stripPy l))

/-- The `insert_idx` loop of lines 188-204: index after the last preamble-only
line, scanning from the top, defaulting to 0. -/
def lastPreambleIdx : Nat → Nat → List Str → Nat
  | _, acc, [] => acc
  | i, acc, l :: ls => lastPreambleIdx (i + 1) (if isPreambleLine l then i + 1 else acc) ls

/-- Lines 177-210 (`ensure_document_structure`). -/
def ensure_document_structure (code : Str) : Str × List Str :=
  let r1 :=
    if containsB docClassTok code then (code, ([] : List Str))
    else ("\\documentclass[12pt]{article}".data ++ '\n' :: code,
          ["Added missing \\documentclass".data])
  if containsB beginDocTok r1.1 then r1
  else
    let lines := splitNl r1.1
    (joinNl (insertAt (lastPreambleIdx 0 0 lines) beginDocTok lines),
     r1.2 ++ ["Added missing \\begin{document}".data])

/-- `\usepackage` -/
def usepackageTok : Str := "\\usepackage".data

/-- Lazy bracket-option search for `\[.*?\]` followed by the mandatory group
`grp`: scanning just after the opening bracket, the first closing bracket with
`grp` right after ends the option (earlier closing brackets are absorbed by the
lazy `.*?`, which cannot cross a newline). Returns (option text, rest after
`grp`). -/
def findOptEnd (grp : Str) : Str → Option (Str × Str)
  | [] => none
  | c :: s =>
    if c = '\n' then none
    else if c = ']' && startsWith grp s then some ([], s.drop grp.length)
    else (findOptEnd grp s).map (fun r => (c :: r.1, r.2))

/-- Match of `\usepackage(?:\[.*?\])?\{pkg\}` (line 216) at the head of `s`:
returns (matched text, rest).  The optional group is tried when a bracket is
present; otherwise the mandatory group must follow directly.  The source
splices the captured name into the pattern without escaping, so this literal
reading is exact precisely for names free of regex metacharacters; a name that
makes the spliced pattern invalid raises `re.error` instead (modelled by
`pkgPatternRaises` and the raise-aware worker `runLoopE`). -/
def matchUsepkgAt (pkg : Str) (s : Str) : Option (Str × Str) :=
  if startsWith usepackageTok s then
    let t := s.drop usepackageTok.length
    let grp := '\x7b' :: pkg ++ ['\x7d']
    match t with
    | '[' :: u =>
      match findOptEnd grp u with
      | some r => some (usepackageTok ++ '[' :: r.1 ++ ']' :: grp, r.2)
      | none => none
    | _ => if startsWith grp t then some (usepackageTok ++ grp, t.drop grp.length) else none
  else none

/-- `re.search` for the usepackage pattern. -/
def hasUsepkg (pkg : Str) : Str → Bool
  | [] => (matchUsepkgAt pkg []).isSome
  | c :: s => (matchUsepkgAt pkg (c :: s)).isSome || hasUsepkg pkg s

/-- `re.sub` for the usepackage pattern with replacement
`% \1  % Package not available`. -/
def subUsepkgAux (pkg : Str) : Nat → Str → Str
  | _, [] => []
  | k + 1, _ :: s => subUsepkgAux pkg k s
  | 0, c :: s =>
    match matchUsepkgAt pkg (c :: s) with
    | some r =>
      "% ".data ++ r.1 ++ "  % Package not available".data ++ subUsepkgAux pkg (r.1.length - 1) s
    | none => c :: subUsepkgAux pkg 0 s

/-- Lines 213-220 (`fix_package_not_found`), for names on which the spliced
pattern compiles (see `pkgPatternRaises` for the raising names). -/
def fix_package_not_found (code pkg : Str) : Str × List Str :=
  if hasUsepkg pkg code then
    (subUsepkgAux pkg 0 code, ["Commented out unavailable package: ".data ++ pkg])
  else (code, [])

/-- Lines 223-230 (`fix_undefined_environment`). -/
def fix_undefined_environment (code env : Str) : Str × List Str :=
  let b := beginTok ++ env ++ ['\x7d']
  if containsB b code then
    let e := endTok ++ env ++ ['\x7d']
    let code1 :=
      replaceAll b ("% Undefined environment: ".data ++ env ++ '\n' :: "\\begin{verbatim}".data) code
    let code2 :=
      replaceAll e ("\\end{verbatim}".data ++ '\n' :: "% End: ".data ++ env) code1
    (code2, ["Replaced undefined environment: ".data ++ env])
  else (code, [])

/-- Lines 232-279 (`comprehensive_fix`): the full ordered pipeline; the two
diagnostic-driven rules run only when their pattern matches the error log. -/
def comprehensive_fix (code : Str) (error_log : Str) : Str × List Str :=
  let r1 := ensure_document_structure code
  let r2 := fix_lstlisting_issues r1.1
  let r3 := fix_tabularx_issues r2.1
  let r4 := fix_description_issues r3.1
  let r5 := fix_multicol_issues r4.1
  let r6 := fix_brace_imbalance r5.1
  let r7 := fix_truncated_document r6.1
  let r8 :=
    match searchPkgMissing error_log with
    | some pkg => fix_package_not_found r7.1 pkg
    | none => (r7.1, [])
  let r9 :=
    match searchEnvUndefined error_log with
    | some env => fix_undefined_environment r8.1 env
    | none => (r8.1, [])
  (r9.1, r1.2 ++ (r2.2 ++ (r3.2 ++ (r4.2 ++ (r5.2 ++ (r6.2 ++ (r7.2 ++ (r8.2 ++ r9.2))))))))

end LatexAutoFixer

/-! ### The orchestrator (`CompilationWorker`) -/

/-- The payload of the `finished` signal: (success, pdf_path, error, fixes). -/
structure RunFinish where
  success : Bool
  pdfPath : Str
  error : Str
  fixes : List Str
deriving DecidableEq

/-- Result of one `_compile` invocation, abstracting the external toolchain. -/
inductive Outcome where
  | ok (pdf : Str)
  | fail (err : Str)
deriving DecidableEq

/-- Events observable from the worker (progress signals and the terminal
`finished` signal; the streaming `page_ready` signal is not modelled). -/
inductive Event where
  | progress (msg : Str)
  | finished (r : RunFinish)
deriving DecidableEq

/-- Whether an event is the terminal `finished` signal. -/
def Event.isFinished : Event → Bool
  | .finished _ => true
  | _ => false

namespace CompilationWorker

/-- Line 289. -/
def MAX_FIX_ATTEMPTS : Nat := 5

/-- What one run of the worker produced: the final `finished` payload, the
emitted events in order, and the number of `_compile` invocations. -/
structure LoopOut where
  result : RunFinish
  events : List Event
  calls : Nat
deriving DecidableEq

/-- Progress message of line 324. -/
def compilingMsg (attempt : Nat) : Str :=
  ("Compiling... (attempt ".data ++ Nat.toDigits 10 (attempt + 1)) ++ ")".data

/-- Progress message of line 336. -/
def analyzingMsg (attempt : Nat) : Str :=
  ("Analyzing errors (attempt ".data ++ Nat.toDigits 10 (attempt + 1)) ++ ")...".data

/-- The retry loop of `run` (lines 323-346).  `oracle k` abstracts the outcome
of the `_compile` call made on loop iteration `k` (the toolchain's behaviour is
an environment input).  `fuel` is the number of loop iterations remaining:
`for attempt in range(MAX_FIX_ATTEMPTS + 1)` runs at most `MAX_FIX_ATTEMPTS + 1`
iterations.  A loop that runs out of iterations ends without emitting anything;
the invariant `attempt + fuel = MAX_FIX_ATTEMPTS + 1` makes that unreachable
from `runWorker` (every final iteration returns). -/
def runLoop (autofix : Bool) (oracle : Nat → Outcome) :
    Nat → Nat → Str → List Str → LoopOut
  | 0, _, _, fixes => ⟨⟨false, [], [], fixes⟩, [], 0⟩
  | fuel + 1, attempt, code, fixes =>
    match oracle attempt with
    | .ok pdf =>
      ⟨⟨true, pdf, [], fixes⟩,
       [.progress (compilingMsg attempt), .progress ("Done!".data),
        .finished ⟨true, pdf, [], fixes⟩], 1⟩
    | .fail err =>
      if !autofix || attempt ≥ MAX_FIX_ATTEMPTS then
        ⟨⟨false, [], err, fixes⟩,
         [.progress (compilingMsg attempt), .finished ⟨false, [], err, fixes⟩], 1⟩
      else
        let fr := LatexAutoFixer.comprehensive_fix code err
        if fr.1 = code || fr.2 = [] then
          ⟨⟨false, [], err, fixes⟩,
           [.progress (compilingMsg attempt), .progress (analyzingMsg attempt),
            .finished ⟨false, [], err, fixes⟩], 1⟩
        else
          let rest := runLoop autofix oracle fuel (attempt + 1) fr.1 (fixes ++ fr.2)
          ⟨rest.result,
           .progress (compilingMsg attempt) :: .progress (analyzingMsg attempt) :: rest.events,
           rest.calls + 1⟩

/-- The document after the pre-pass of lines 315-321. -/
def prePassCode (autofix : Bool) (code : Str) : Str :=
  if autofix then (LatexAutoFixer.comprehensive_fix code []).1 else code

/-- The fixes accumulated by the pre-pass of lines 315-321. -/
def prePassFixes (autofix : Bool) (code : Str) : List Str :=
  if autofix then (LatexAutoFixer.comprehensive_fix code []).2 else []

/-- `CompilationWorker.run` (lines 312-346): optional repair pre-pass, then the
bounded retry loop. -/
def runWorker (autofix : Bool) (oracle : Nat → Outcome) (code : Str) : LoopOut :=
  let lo := runLoop autofix oracle (MAX_FIX_ATTEMPTS + 1) 0
    (prePassCode autofix code) (prePassFixes autofix code)
  ⟨lo.result,
   (if autofix then [Event.progress ("Pre-checking document structure...".data)] else [])
     ++ lo.events,
   lo.calls⟩

/-- The outcome decision at the end of `_compile` (lines 425-442), as a function
of draft mode, whether the log file exists and its content, whether the output
artifact exists, the artifact path, and the diagnostic `_extract_error` would
produce.  In draft mode with a log present the decision reads only the log
(lines 426-435): success iff the log has the no-output signal, lacks the
output-written signal, or lacks an error marker; any other case (including
draft mode without a log) is decided by artifact existence (lines 437-442). -/
def compileOutcome (draft logExists : Bool) (log : Str) (pdfExists : Bool)
    (pdfFile extracted : Str) : Outcome :=
  if draft && logExists then
    if containsB ("No pages of output".data) log
        || !containsB ("Output written".data) log then .ok []
    else if containsB ['!'] log then .fail extracted
    else .ok []
  else if pdfExists then .ok pdfFile
  else .fail extracted

/-- The fixed message of line 360 for a missing toolchain binary. -/
def toolchainMissingMsg : Str :=
  "pdflatex not found. Install TeX Live or MiKTeX.".data

end CompilationWorker

namespace LatexCompiler

/-- Lines 513-516 (`_on_finished`): the stored last artifact path is replaced
only when the request finished successfully. -/
def onFinished (st : Option Str) (success : Bool) (pdfPath : Str) : Option Str :=
  if success then some pdfPath else st

/-- `last_pdf_path` (read by `get_last_pdf_path`, line 518-519) after a sequence
of finished events, starting from the initial `None` of line 488. -/
def lastPdfAfter (rs : List (Bool × Str)) : Option Str :=
  rs.foldl (fun st r => onFinished st r.1 r.2) none

end LatexCompiler

/-! ### Spec-side definitions (what the claims describe) -/

/-- Modelled from the spec: the still-open-block reconstruction as claim C5
words it — "a LIFO stack built by scanning all begin/end markers in document
order, pairing each end marker with the most recently unmatched begin marker of
the same kind".  One interleaved scan; a begin marker pushes its kind, an end
marker pops when its kind equals the top of the stack.  The returned stack is
innermost-first. -/
def specLifoOpenAux : Nat → List Str → Str → List Str
  | _, st, [] => st
  | k + 1, st, _ :: s => specLifoOpenAux k st s
  | 0, st, c :: s =>
    if startsWith beginTok (c :: s) then
      let t := s.drop (beginTok.length - 1)
      let w := t.takeWhile isWordChar
      if w.length > 0 && startsWith ['}'] (t.drop w.length) then
        specLifoOpenAux (beginTok.length - 1 + w.length + 1) (w :: st) s
      else specLifoOpenAux 0 st s
    else if startsWith endTok (c :: s) then
      let t := s.drop (endTok.length - 1)
      let w := t.takeWhile isWordChar
      if w.length > 0 && startsWith ['}'] (t.drop w.length) then
        match st with
        | h :: rest =>
          if w = h then specLifoOpenAux (endTok.length - 1 + w.length + 1) rest s
          else specLifoOpenAux (endTok.length - 1 + w.length + 1) st s
        | [] => specLifoOpenAux (endTok.length - 1 + w.length + 1) st s
      else specLifoOpenAux 0 st s
    else specLifoOpenAux 0 st s

/-- Modelled from the spec: the truncation fix as claim C5 describes it —
closers for the document-order LIFO still-open blocks, innermost first, then
the terminal marker. -/
def specFixTruncated (code : Str) : Str :=
  if containsB docEnd code then code
  else
    code ++
      ((specLifoOpenAux 0 [] code).map (fun env => '\n' :: endTok ++ env ++ ['\x7d'])).flatten
      ++ '\n' :: docEnd

/-- The source's two-phase still-open computation, restated with folds: push the
kinds of all begin markers (most recent at the head), then fold over the end
marker kinds in document order, popping exactly when the kind equals the head. -/
def twoPhaseOpen (code : Str) : List Str :=
  (envScan endTok code).foldl
    (fun st e =>
      match st with
      | [] => []
      | h :: t => if e = h then t else h :: t)
    (envScan beginTok code).reverse

/-! ### Concrete documents, oracles and invariants used by the claims -/

/-- A document whose terminal marker occurs twice: one opening brace, then two
copies of `\end{document}`. -/
def twoMarkerDoc : Str := '\x7b' :: (docEnd ++ docEnd)

/-- A document with one structural opening brace and a complete listing region
enclosing its unique terminal marker: the brace-balance insertion lands inside
the excluded region, so the structural counts do not change. -/
def regionMarkerDoc : Str := '\x7b' :: (begLst ++ docEnd ++ endLst)

/-- A document containing a complete begin-listing marker but no end-listing
marker (the end-listing text before the unique terminal marker misses its
closing brace): the inserted closing braces complete an end-listing marker,
creating an excluded region that swallows previously counted braces. -/
def begOnlyDoc : Str := begLst ++ "x\x7b".data ++ endLst.dropLast ++ docEnd

/-- A document containing a complete end-listing marker but no begin-listing
marker (the begin-listing text before the unique terminal marker misses its
closing brace): the inserted closing braces complete a begin-listing marker,
creating an excluded region. -/
def endOnlyDoc : Str := begLst.dropLast ++ docEnd ++ endLst ++ "\x7b\x7b".data

/-- A well-behaved unbalanced document: two opening braces, one closed group,
one terminal marker. -/
def c4WitnessDoc : Str := "\x7b\x7ba\x7d".data ++ docEnd

/-- The document `\begin{A}\end{A}\begin{B}`: a matched pair (A) before an
unmatched begin (B). -/
def interleavedDoc : Str := "\\begin{A}\\end{A}\\begin{B}".data

/-- A concrete well-formed document. -/
def c3WitnessDoc : Str :=
  "\\documentclass[12pt]{article}\n\\begin{document}\nHello\n\\end{document}".data

/-- A well-formed document and a diagnostic that names the block kind
`document` as undefined. -/
def undefinedDocEnvDoc : Str := "\\documentclass{a}\\begin{document}x\\end{document}".data

/-- The raw diagnostic text naming kind `document`. -/
def undefinedDocEnvLog : Str := "Environment document undefined".data

/-- The properties established for one run of the retry loop: the terminal
event is emitted exactly once and last; the final fixes extend the accumulated
ones; between 1 and `fuel` compile calls are made; and the reported outcome is
the outcome of the last compile call. -/
def LoopInv (oracle : Nat → Outcome) (attempt : Nat) (fixes : List Str) (fuel : Nat)
    (lo : CompilationWorker.LoopOut) : Prop :=
  (∃ pre, lo.events = pre ++ [Event.finished lo.result] ∧ ∀ e ∈ pre, e.isFinished = false)
  ∧ (∃ ext, lo.result.fixes = fixes ++ ext)
  ∧ 1 ≤ lo.calls ∧ lo.calls ≤ fuel
  ∧ (lo.result.success = false →
      oracle (attempt + lo.calls - 1) = .fail lo.result.error)
  ∧ (lo.result.success = true →
      oracle (attempt + lo.calls - 1) = .ok lo.result.pdfPath)

/-- A toolchain oracle that always fails with a one-character diagnostic. -/
def alwaysFailOracle : Nat → Outcome := fun _ => .fail ['x']

/-- A toolchain oracle failing with a diagnostic on which the repair of the
well-formed witness document is the identity. -/
def c2Oracle : Nat → Outcome := fun _ => .fail ['x']

/-- A toolchain oracle for a permanently missing binary: every `_compile` call
returns the fixed explanatory message (line 360). -/
def missingOracle : Nat → Outcome := fun _ => .fail CompilationWorker.toolchainMissingMsg

/-- A document on which the repair pre-pass is not idempotent: the terminal
marker occurs twice, so the pre-pass inserts a closing brace before each and
the next repair pass removes one again. -/
def nonConvergentDoc : Str :=
  "\\documentclass{a}\\begin{document}\x7b".data ++ docEnd ++ docEnd

/-! ### The raise-aware worker model (line 216's unescaped interpolation) -/

namespace CompilationWorker

end CompilationWorker

theorem startsWith_iff : ∀ p s : Str, startsWith p s = true ↔ ∃ t, s = p ++ t
  | [], s => by simp [startsWith]
  | a :: p, [] => by simp [startsWith]
  | a :: p, b :: s => by
    simp only [startsWith, Bool.and_eq_true, decide_eq_true_eq, List.cons_append,
      List.cons.injEq]
    rw [startsWith_iff p s]
    constructor
    · rintro ⟨rfl, t, rfl⟩
      exact ⟨t, rfl, rfl⟩
    · rintro ⟨t, rfl, rfl⟩
      exact ⟨rfl, t, rfl⟩

theorem containsB_iff : ∀ p s : Str, containsB p s = true ↔ ∃ u v, s = u ++ p ++ v
  | p, [] => by
    simp only [containsB]
    rw [startsWith_iff]
    constructor
    · rintro ⟨t, ht⟩
      exact ⟨[], t, by simpa using ht⟩
    · rintro ⟨u, v, huv⟩
      rcases List.append_eq_nil.mp huv.symm with ⟨hup, hv⟩
      rcases List.append_eq_nil.mp hup with ⟨hu, hp⟩
      exact ⟨[], by simp [hp]⟩
  | p, c :: s => by
    simp only [containsB, Bool.or_eq_true]
    rw [startsWith_iff, containsB_iff p s]
    constructor
    · rintro (⟨t, ht⟩ | ⟨u, v, rfl⟩)
      · exact ⟨[], t, by simpa using ht⟩
      · exact ⟨c :: u, v, by simp⟩
    · rintro ⟨u, v, huv⟩
      match u, huv with
      | [], huv => exact Or.inl ⟨v, by simpa using huv⟩
      | x :: u, huv =>
        rcases List.cons.injEq .. ▸ huv with ⟨rfl, hs⟩
        exact Or.inr ⟨u, v, hs⟩

theorem containsB_append_right {p y : Str} (x : Str) (h : containsB p y = true) :
    containsB p (x ++ y) = true := by
  rcases (containsB_iff p y).1 h with ⟨u, v, rfl⟩
  exact (containsB_iff ..).2 ⟨x ++ u, v, by simp⟩

theorem containsB_append_left {p x : Str} (y : Str) (h : containsB p x = true) :
    containsB p (x ++ y) = true := by
  rcases (containsB_iff p x).1 h with ⟨u, v, rfl⟩
  exact (containsB_iff ..).2 ⟨u, v ++ y, by simp⟩

theorem containsB_trans {q p s : Str} (hqp : containsB q p = true)
    (hps : containsB p s = true) : containsB q s = true := by
  rcases (containsB_iff q p).1 hqp with ⟨u1, v1, rfl⟩
  rcases (containsB_iff ..).1 hps with ⟨u, v, rfl⟩
  exact (containsB_iff ..).2 ⟨u ++ u1, v1 ++ v, by simp⟩

theorem mem_of_containsB {p s : Str} (h : containsB p s = true) {c : Char}
    (hc : c ∈ p) : c ∈ s := by
  rcases (containsB_iff p s).1 h with ⟨u, v, rfl⟩
  simp [hc]

/-- An occurrence of `t` in `x ++ y` lies in `x`, lies in `y`, or spans the
border: `t = t1 ++ t2` with a nonempty `t1` ending `x` and a nonempty `t2`
starting `y`. -/
theorem containsB_append_cases {t x y : Str} (h : containsB t (x ++ y) = true) :
    containsB t x = true ∨ containsB t y = true ∨
      ∃ t1 t2, t = t1 ++ t2 ∧ t1 ≠ [] ∧ t2 ≠ [] ∧
        (∃ u, x = u ++ t1) ∧ ∃ v, y = t2 ++ v := by
  rcases (containsB_iff ..).1 h with ⟨u, v, huv⟩
  rw [List.append_assoc] at huv
  rcases List.append_eq_append_iff.1 huv with ⟨w, hu, hy⟩ | ⟨w, hx, hw⟩
  · refine Or.inr (Or.inl ((containsB_iff ..).2 ⟨w, v, ?_⟩))
    rw [hy]; simp
  · rcases List.append_eq_append_iff.1 hw with ⟨w2, hww, hv⟩ | ⟨t2, ht, hy⟩
    · refine Or.inl ((containsB_iff ..).2 ⟨u, w2, ?_⟩)
      rw [hx, hww]; simp
    · cases t2 with
      | nil =>
        refine Or.inl ((containsB_iff ..).2 ⟨u, [], ?_⟩)
        simp only [List.append_nil] at ht ⊢
        rw [hx, ht]
      | cons c2 t2 =>
        cases w with
        | nil =>
          refine Or.inr (Or.inl ((containsB_iff ..).2 ⟨[], v, ?_⟩))
          simp only [List.nil_append] at ht ⊢
          rw [hy, ht]
        | cons cw w =>
          exact Or.inr (Or.inr ⟨cw :: w, c2 :: t2, ht, by simp, by simp, ⟨u, hx⟩, ⟨v, hy⟩⟩)

/-- The first element of a nonempty right part of an occurrence. -/
theorem head_mem_of_eq_append {t2 y v : Str} (hy : y = t2 ++ v) (h2 : t2 ≠ []) :
    ∃ c, y.head? = some c ∧ c ∈ t2 := by
  match t2, h2 with
  | a :: t2, _ => exact ⟨a, by simp [hy], by simp⟩

/-- The last element of a nonempty left part of an occurrence. -/
theorem getLast_mem_of_eq_append {t1 x u : Str} (hx : x = u ++ t1) (h1 : t1 ≠ []) :
    ∃ c, x.getLast? = some c ∧ c ∈ t1 := by
  cases h : t1.getLast? with
  | none => exact absurd (List.getLast?_eq_none_iff.1 h) h1
  | some c =>
    refine ⟨c, ?_, List.mem_of_mem_getLast? (by simp [h])⟩
    rw [hx, List.getLast?_append, h]
    rfl

/-! ### Lemmas: skip-state scanners -/

theorem replAux_skip (p r : Str) : ∀ (s : Str) (k : Nat),
    replAux p r k s = replAux p r 0 (s.drop k)
  | [], k => by cases k <;> simp [replAux]
  | _ :: _, 0 => rfl
  | c :: s, k + 1 => by
    simp only [replAux, List.drop_succ_cons]
    exact replAux_skip p r s k

theorem countAux_skip (p : Str) : ∀ (s : Str) (k : Nat),
    countAux p k s = countAux p 0 (s.drop k)
  | [], k => by cases k <;> simp [countAux]
  | _ :: _, 0 => rfl
  | c :: s, k + 1 => by
    simp only [countAux, List.drop_succ_cons]
    exact countAux_skip p s k

theorem replaceAll_pos {p r : Str} {c : Char} {s : Str}
    (h : startsWith p (c :: s) = true) :
    replaceAll p r (c :: s) = r ++ replaceAll p r (s.drop (p.length - 1)) := by
  simp only [replaceAll, replAux, h, if_true]
  rw [replAux_skip]

theorem replaceAll_neg {p r : Str} {c : Char} {s : Str}
    (h : startsWith p (c :: s) = false) :
    replaceAll p r (c :: s) = c :: replaceAll p r s := by
  simp only [replaceAll, replAux, h]
  simp

theorem countSub_pos_eq {p : Str} {c : Char} {s : Str}
    (h : startsWith p (c :: s) = true) :
    countSub p (c :: s) = countSub p (s.drop (p.length - 1)) + 1 := by
  simp only [countSub, countAux, h, if_true]
  rw [countAux_skip]

theorem countSub_neg_eq {p : Str} {c : Char} {s : Str}
    (h : startsWith p (c :: s) = false) :
    countSub p (c :: s) = countSub p s := by
  simp only [countSub, countAux, h]
  simp

theorem countSub_zero_replaceAll (p r : Str) : ∀ (n : Nat) (s : Str), s.length ≤ n →
    countSub p s = 0 → replaceAll p r s = s
  | _, [], _, _ => rfl
  | 0, c :: s, hn, _ => by simp at hn
  | n + 1, c :: s, hn, h0 => by
    cases h : startsWith p (c :: s) with
    | true => rw [countSub_pos_eq h] at h0; omega
    | false =>
      rw [countSub_neg_eq h] at h0
      rw [replaceAll_neg h,
        countSub_zero_replaceAll p r n s (by simp only [List.length_cons] at hn; omega) h0]

theorem countSub_pos_containsB {p : Str} : ∀ s : Str, 0 < countSub p s → containsB p s = true
  | [], h => by
    simp only [countSub, countAux] at h
    exact absurd h (lt_irrefl 0)
  | c :: s, h => by
    simp only [containsB, Bool.or_eq_true]
    cases hs : startsWith p (c :: s) with
    | true => exact Or.inl rfl
    | false =>
      rw [countSub_neg_eq hs] at h
      exact Or.inr (countSub_pos_containsB s h)

theorem countSub_one_decomp (p r : Str) (hp : p ≠ []) : ∀ (n : Nat) (s : Str), s.length ≤ n →
    countSub p s = 1 →
    ∃ b a, s = b ++ p ++ a ∧ countSub p a = 0 ∧ replaceAll p r s = b ++ r ++ a
  | _, [], _, h1 => by
    simp only [countSub, countAux] at h1
    exact absurd h1 (by decide)
  | 0, c :: s, hn, _ => by simp at hn
  | n + 1, c :: s, hn, h1 => by
    cases h : startsWith p (c :: s) with
    | true =>
      rcases (startsWith_iff ..).1 h with ⟨t, ht⟩
      have hdrop : s.drop (p.length - 1) = t := by
        match p, hp with
        | a :: p, _ =>
          rcases List.cons.injEq .. ▸ ht with ⟨rfl, hst⟩
          simp only [hst, List.length_cons, Nat.add_sub_cancel]
          exact List.drop_left p t
      rw [countSub_pos_eq h, hdrop] at h1
      have h0 : countSub p t = 0 := by omega
      have hp1 : 1 ≤ p.length := List.length_pos.mpr hp
      have hlt : t.length ≤ n := by
        have hl := congrArg List.length ht
        simp only [List.length_cons, List.length_append] at hl
        simp only [List.length_cons] at hn
        omega
      refine ⟨[], t, by simp only [List.nil_append]; exact ht, h0, ?_⟩
      rw [replaceAll_pos h, hdrop, countSub_zero_replaceAll p r n t hlt h0]
      simp
    | false =>
      rw [countSub_neg_eq h] at h1
      rcases countSub_one_decomp p r hp n s (by simp only [List.length_cons] at hn; omega) h1
        with ⟨b, a, rfl, h0, hrep⟩
      exact ⟨c :: b, a, rfl, h0, by rw [replaceAll_neg h, hrep]; rfl⟩

/-- Unfolding of `containsB` at a cons cell. -/
theorem containsB_cons (p : Str) (c : Char) (s : Str) :
    containsB p (c :: s) = (startsWith p (c :: s) || containsB p s) := rfl

/-- When the document contains no `lstlisting` begin marker, no excluded region
exists, so structural brace counting is plain character counting. -/
theorem bracesOutside_plain : ∀ s : Str, containsB begLst s = false →
    bracesOutside s = (s.count '{', s.count '}')
  | [], _ => by simp [bracesOutside, bracesAux]
  | c :: s, h => by
    rw [containsB_cons] at h
    rcases Bool.or_eq_false_iff.mp h with ⟨h1, h2⟩
    have ih := bracesOutside_plain s h2
    simp only [bracesOutside, bracesAux, h1] at ih ⊢
    simp only [Bool.false_eq_true, if_false, ih]
    rw [List.count_cons, List.count_cons]
    simp [beq_iff_eq]

/-! ### Lemmas: closing-brace removal -/

theorem dropFirstRB_no : ∀ s : Str, '}' ∉ s → dropFirstRB s = s
  | [], _ => rfl
  | c :: s, h => by
    have hc : ¬(c = '}') := fun hc => h (by simp [hc])
    simp only [dropFirstRB, if_neg hc]
    rw [dropFirstRB_no s (fun hm => h (List.mem_cons_of_mem c hm))]

theorem dropFirstRB_split : ∀ s : Str, '}' ∈ s →
    ∃ u v, s = u ++ '}' :: v ∧ '}' ∉ u ∧ dropFirstRB s = u ++ v
  | c :: s, h => by
    by_cases hc : c = '}'
    · subst hc
      exact ⟨[], s, rfl, by simp, by simp [dropFirstRB]⟩
    · have hs : '}' ∈ s := by
        rcases List.mem_cons.mp h with h1 | h1
        · exact absurd h1.symm hc
        · exact h1
      rcases dropFirstRB_split s hs with ⟨u, v, huv, hu, hd⟩
      refine ⟨c :: u, v, by rw [huv]; rfl, ?_, ?_⟩
      · simp only [List.mem_cons, not_or]
        exact ⟨fun e => hc e.symm, hu⟩
      · simp only [dropFirstRB, if_neg hc, hd]
        rfl

theorem removeLastRB_split (s : Str) (h : '}' ∈ s) :
    ∃ u v, s = u ++ '}' :: v ∧ '}' ∉ v ∧ removeLastRB s = u ++ v := by
  rcases dropFirstRB_split s.reverse (List.mem_reverse.mpr h) with ⟨p, q, hsplit, hp, hd⟩
  refine ⟨q.reverse, p.reverse, ?_, by simpa using hp, ?_⟩
  · have hs := congrArg List.reverse hsplit
    simpa [List.reverse_append] using hs
  · rw [removeLastRB, hd]
    simp [List.reverse_append]

theorem removeLastRB_count (s : Str) (h : '}' ∈ s) :
    (removeLastRB s).count '}' = s.count '}' - 1 ∧
      (removeLastRB s).count '{' = s.count '{' := by
  rcases removeLastRB_split s h with ⟨u, v, rfl, hv, hrm⟩
  rw [hrm]
  refine ⟨?_, ?_⟩ <;> simp [List.count_append, List.count_cons]

theorem removeLastRB_id (s : Str) (h : '}' ∉ s) : removeLastRB s = s := by
  rw [removeLastRB, dropFirstRB_no s.reverse (by simpa using h)]
  simp

/-- A pattern whose last character is the closing brace cannot be created by
deleting the last closing brace of a text that did not contain it. -/
theorem removeLastRB_preserve {m : Str} (hlast : m.getLast? = some '}') (s : Str)
    (hm : containsB m s = false) : containsB m (removeLastRB s) = false := by
  by_cases h : '}' ∈ s
  · rcases removeLastRB_split s h with ⟨u, v, hs, hv, hrm⟩
    rw [hrm]
    by_contra hc
    have htrue : containsB m (u ++ v) = true := by
      cases hx : containsB m (u ++ v) with
      | true => rfl
      | false => exact absurd hx hc
    rcases containsB_append_cases htrue with h1 | h1 | ⟨t1, t2, heq, ht1, ht2, ⟨u1, hu1⟩, ⟨v2, hv2⟩⟩
    · rw [hs, containsB_append_left ('}' :: v) h1] at hm
      exact absurd hm (by simp)
    · rw [hs] at hm
      have : containsB m (u ++ '}' :: v) = true :=
        containsB_append_right u (by
          rw [containsB_cons]
          simp only [Bool.or_eq_true]
          exact Or.inr h1)
      rw [this] at hm
      exact absurd hm (by simp)
    · have h2last : t2.getLast? = some '}' := by
        cases hgl : t2.getLast? with
        | none => exact absurd (List.getLast?_eq_none_iff.1 hgl) ht2
        | some c =>
          rw [heq, List.getLast?_append, hgl] at hlast
          simpa using hlast
      have hmem2 : '}' ∈ t2 := List.mem_of_mem_getLast? (by simp [h2last])
      rw [hv2] at hv
      exact hv (by simp [hmem2])
  · rw [removeLastRB_id s h]
    exact hm

/-- The removal loop: with no `lstlisting` begin marker and enough closing
braces, `n` removals delete exactly `n` closing braces, no opening brace, and
cannot create a begin marker. -/
theorem removeLastRBs_spec : ∀ (n : Nat) (s : Str), containsB begLst s = false →
    n ≤ s.count '}' →
    containsB begLst (removeLastRBs n s) = false ∧
      (removeLastRBs n s).count '}' = s.count '}' - n ∧
      (removeLastRBs n s).count '{' = s.count '{'
  | 0, s, hm, _ => ⟨hm, by simp [removeLastRBs], by simp [removeLastRBs]⟩
  | n + 1, s, hm, hn => by
    have hmem : '}' ∈ s := List.count_pos_iff.mp (by omega)
    have hcount := removeLastRB_count s hmem
    have hpres := removeLastRB_preserve (by decide) s hm
    have ih := removeLastRBs_spec n (removeLastRB s) hpres (by omega)
    simp only [removeLastRBs]
    exact ⟨ih.1, by rw [ih.2.1, hcount.1]; omega, by rw [ih.2.2, hcount.2]⟩

/-! ### Lemmas: inserted closing braces and the listing markers -/

theorem containsB_false_of_append_left {p x y : Str}
    (h : containsB p (x ++ y) = false) : containsB p x = false := by
  cases hx : containsB p x with
  | false => rfl
  | true => rw [containsB_append_left y hx] at h; exact absurd h (by simp)

theorem containsB_false_of_append_right {p x y : Str}
    (h : containsB p (x ++ y) = false) : containsB p y = false := by
  cases hx : containsB p y with
  | false => rfl
  | true => rw [containsB_append_right x hx] at h; exact absurd h (by simp)

/-- `idxOf` finds nothing when the pattern occurs nowhere. -/
theorem idxOf_none_of_not_contains {p : Str} : ∀ s : Str, containsB p s = false →
    idxOf p s = none
  | [], h => by
    simp only [containsB] at h
    simp only [idxOf, h, Bool.false_eq_true, if_false]
  | c :: s, h => by
    rw [containsB_cons] at h
    rcases Bool.or_eq_false_iff.mp h with ⟨h1, h2⟩
    simp only [idxOf, h1, Bool.false_eq_true, if_false]
    rw [idxOf_none_of_not_contains s h2]
    rfl

/-- An occurrence in a suffix is an occurrence. -/
theorem containsB_of_drop {p : Str} (k : Nat) {s : Str}
    (h : containsB p (s.drop k) = true) : containsB p s = true := by
  have hs : s = s.take k ++ s.drop k := (List.take_append_drop k s).symm
  rw [hs]
  exact containsB_append_right _ h

/-- When the document contains no `lstlisting` end marker, no excluded region
can complete, so structural brace counting is plain character counting. -/
theorem bracesOutside_plain_end : ∀ s : Str, containsB endLst s = false →
    bracesOutside s = (s.count '{', s.count '}')
  | [], _ => by simp [bracesOutside, bracesAux]
  | c :: s, h => by
    rw [containsB_cons] at h
    rcases Bool.or_eq_false_iff.mp h with ⟨h1, h2⟩
    cases hb : startsWith begLst (c :: s) with
    | true =>
      have hidx : idxOf endLst (s.drop (begLst.length - 1)) = none :=
        idxOf_none_of_not_contains _ (by
          cases hx : containsB endLst (s.drop (begLst.length - 1)) with
          | false => rfl
          | true =>
            rw [containsB_of_drop _ hx] at h2
            exact absurd h2 (by simp))
      simp only [bracesOutside, bracesAux, hb, if_true, hidx]
    | false =>
      have ih := bracesOutside_plain_end s h2
      simp only [bracesOutside, bracesAux, hb, Bool.false_eq_true, if_false] at ih ⊢
      simp only [ih]
      rw [List.count_cons, List.count_cons]
      simp [beq_iff_eq]

/-- A character of the left part of a split of `m` lies before the last
position of `m`. -/
theorem mem_dropLast_of_split {m t1 t2 : Str} (heq : m = t1 ++ t2) (h2 : t2 ≠ [])
    {c : Char} (hc : c ∈ t1) : c ∈ m.dropLast := by
  rw [heq, List.dropLast_append_of_ne_nil t1 h2]
  exact List.mem_append.mpr (Or.inl hc)

/-- Inserting `k ≥ 1` closing braces and a newline-prefixed terminal marker
between `b` and `a` can create an occurrence of a marker `m` — one containing
the letter l whose only closing brace is its final character — only by ending
`b` with everything of `m` but that final brace: an occurrence inside either
side is excluded, one inside the replacement would need the letter l there,
and any other spanning occurrence would put a closing brace before the last
position of `m`. -/
theorem created_marker_span {m b a : Str} {k : Nat} (hk : 1 ≤ k)
    (hl : ('l' : Char) ∈ m) (hnb : ('}' : Char) ∉ m.dropLast)
    (hb : containsB m b = false) (ha : containsB m a = false)
    (h : containsB m (b ++ (List.replicate k '}' ++ '\n' :: docEnd) ++ a) = true) :
    ∃ u, b = u ++ m.dropLast := by
  set repl := List.replicate k '}' ++ '\n' :: docEnd with hrepl
  rw [List.append_assoc] at h
  rcases containsB_append_cases h with h1 | h1 | ⟨t1, t2, heq, ht1, ht2, ⟨u1, hu1⟩, ⟨v2, hv2⟩⟩
  · rw [h1] at hb
    exact absurd hb (by simp)
  · exfalso
    rcases containsB_append_cases h1 with h2 | h2 | ⟨s1, s2, heq2, hs1, hs2, ⟨w1, hw1⟩, ⟨x2, hx2⟩⟩
    · have hlr : ('l' : Char) ∈ repl := mem_of_containsB h2 hl
      rw [hrepl] at hlr
      rcases List.mem_append.mp hlr with hlr | hlr
      · exact absurd (List.eq_of_mem_replicate hlr) (by decide)
      · exact absurd hlr (by decide)
    · rw [h2] at ha
      exact absurd ha (by simp)
    · rcases getLast_mem_of_eq_append hw1 hs1 with ⟨c, hc1, hc2⟩
      have hrl : repl.getLast? = some '}' := by
        rw [hrepl, List.getLast?_append]
        have hnl : ('\n' :: docEnd).getLast? = some '}' := by decide
        rw [hnl]
        rfl
      rw [hrl] at hc1
      have hceq : '}' = c := by injection hc1
      exact hnb (mem_dropLast_of_split heq2 hs2 (hceq ▸ hc2))
  · cases t2 with
    | nil => exact absurd rfl ht2
    | cons c0 t2r =>
      have hhead : ('}' : Char) = c0 := by
        have hh1 : (repl ++ a).head? = some c0 := by
          rw [hv2]
          rfl
        have hh2 : (repl ++ a).head? = some '}' := by
          match k, hk with
          | k + 1, _ =>
            rw [hrepl]
            simp [List.replicate_succ]
        rw [hh2] at hh1
        injection hh1
      cases t2r with
      | nil =>
        refine ⟨u1, ?_⟩
        rw [heq, List.dropLast_concat]
        exact hu1
      | cons c1 t2rr =>
        exfalso
        have hmem : ('}' : Char) ∈ (c0 :: c1 :: t2rr).dropLast := by
          rw [← hhead]
          show ('}' : Char) ∈ '}' :: (c1 :: t2rr).dropLast
          exact List.mem_cons_self ..
        have hmm : ('}' : Char) ∈ m.dropLast := by
          rw [heq, List.dropLast_append_of_ne_nil t1 (by simp)]
          exact List.mem_append.mpr (Or.inr hmem)
        exact hnb hmm

/-- A text cannot end with both the brace-less begin-listing text and the
brace-less end-listing text. -/
theorem suffix_conflict {b : Str} (h1 : ∃ u, b = u ++ begLst.dropLast)
    (h2 : ∃ u, b = u ++ endLst.dropLast) : False := by
  rcases h1 with ⟨u1, hu1⟩
  rcases h2 with ⟨u2, hu2⟩
  have h : u1 ++ begLst.dropLast = u2 ++ endLst.dropLast := by
    rw [← hu1, ← hu2]
  have h17 : begLst.dropLast.length = 17 := by decide
  have h15 : endLst.dropLast.length = 15 := by decide
  rcases List.append_eq_append_iff.1 h with ⟨w, hw1, hw2⟩ | ⟨w, hw1, hw2⟩
  · have hl := congrArg List.length hw2
    rw [List.length_append] at hl
    have hwl : w.length = 2 := by omega
    have hdrop := congrArg (List.drop w.length) hw2
    rw [List.drop_left] at hdrop
    rw [hwl] at hdrop
    exact absurd hdrop (by decide)
  · have hl := congrArg List.length hw2
    rw [List.length_append] at hl
    omega

/-- Structural brace counts of the insertion result are plain character counts
when the original sides contain no complete listing marker: either the result
contains no end-listing marker (then no region can complete), or one was
created and then `b` ends with the brace-less end-listing text, which rules
out any begin-listing marker in the result. -/
theorem insertion_plain {b a : Str} {k : Nat} (hk : 1 ≤ k)
    (hbb : containsB begLst b = false) (hba : containsB begLst a = false)
    (heb : containsB endLst b = false) (hea : containsB endLst a = false) :
    bracesOutside (b ++ (List.replicate k '}' ++ '\n' :: docEnd) ++ a) =
      ((b ++ (List.replicate k '}' ++ '\n' :: docEnd) ++ a).count '{',
       (b ++ (List.replicate k '}' ++ '\n' :: docEnd) ++ a).count '}') := by
  cases hE : containsB endLst (b ++ (List.replicate k '}' ++ '\n' :: docEnd) ++ a) with
  | false => exact bracesOutside_plain_end _ hE
  | true =>
    have hspanE := created_marker_span hk (by decide) (by decide) heb hea hE
    have hB : containsB begLst (b ++ (List.replicate k '}' ++ '\n' :: docEnd) ++ a) = false := by
      cases hx : containsB begLst (b ++ (List.replicate k '}' ++ '\n' :: docEnd) ++ a) with
      | false => rfl
      | true =>
        have hspanB := created_marker_span hk (by decide) (by decide) hbb hba hx
        exact (suffix_conflict hspanB hspanE).elim
    exact bracesOutside_plain _ hB

theorem bracesOutside_plain_fst {s : Str} (h : containsB begLst s = false) :
    (bracesOutside s).1 = s.count '{' := by rw [bracesOutside_plain s h]

theorem bracesOutside_plain_snd {s : Str} (h : containsB begLst s = false) :
    (bracesOutside s).2 = s.count '}' := by rw [bracesOutside_plain s h]

/-! ### Claim C4 -/

/-- C4 (amended): for a document with exactly one occurrence of the terminal
marker, no complete begin-listing marker and no complete end-listing marker,
the brace-balance rule inserts exactly O−C closers immediately before the
terminal marker when O>C, removes exactly C−O closers scanning backward from
the end when C>O, and the result has equal structural open/close counts.  Each
hypothesis is forced by one of the counterexample documents: a second marker
receives a copy of the insertion; a unique marker inside a listing region
receives an insertion the region scanner excludes from the counts; a single
complete listing marker of either kind lets the inserted raw closing braces
complete the partial text of the other marker, creating a new excluded
region. -/
theorem c4_brace_balance_amended (d : Str)
    (hone : countSub docEnd d = 1)
    (hbeg : containsB begLst d = false)
    (hend : containsB endLst d = false) :
    ((bracesOutside d).1 > (bracesOutside d).2 →
      ∃ b a, d = b ++ docEnd ++ a ∧
        (LatexAutoFixer.fix_brace_imbalance d).1 =
          b ++ (List.replicate ((bracesOutside d).1 - (bracesOutside d).2) '}' ++
            '\n' :: docEnd) ++ a)
    ∧ ((bracesOutside d).2 > (bracesOutside d).1 →
      (LatexAutoFixer.fix_brace_imbalance d).1 =
        removeLastRBs ((bracesOutside d).2 - (bracesOutside d).1) d ∧
      ((LatexAutoFixer.fix_brace_imbalance d).1).count '}' =
        d.count '}' - ((bracesOutside d).2 - (bracesOutside d).1) ∧
      ((LatexAutoFixer.fix_brace_imbalance d).1).count '{' = d.count '{')
    ∧ (bracesOutside (LatexAutoFixer.fix_brace_imbalance d).1).1 =
        (bracesOutside (LatexAutoFixer.fix_brace_imbalance d).1).2 := by
  have hnb : containsB begLst d = false := hbeg
  have hp1 : (bracesOutside d).1 = d.count '{' := bracesOutside_plain_fst hnb
  have hp2 : (bracesOutside d).2 = d.count '}' := bracesOutside_plain_snd hnb
  have hcont : containsB docEnd d = true := countSub_pos_containsB d (by omega)
  rcases Nat.lt_trichotomy (d.count '{') (d.count '}') with hlt | heqc | hgt
  · -- C > O : removal branch
    have hnotgt : ¬((bracesOutside d).1 > (bracesOutside d).2) := by omega
    have hgt2 : (bracesOutside d).2 > (bracesOutside d).1 := by omega
    have hfix1 : LatexAutoFixer.fix_brace_imbalance d =
        (removeLastRBs ((bracesOutside d).2 - (bracesOutside d).1) d,
         [("Removed ".data ++ Nat.toDigits 10 ((bracesOutside d).2 - (bracesOutside d).1)) ++
            " extra closing brace(s)".data]) := by
      rw [LatexAutoFixer.fix_brace_imbalance]
      rw [if_neg hnotgt, if_pos hgt2]
    have hfa : (LatexAutoFixer.fix_brace_imbalance d).1 =
        removeLastRBs ((bracesOutside d).2 - (bracesOutside d).1) d := by rw [hfix1]
    have hrs := removeLastRBs_spec ((bracesOutside d).2 - (bracesOutside d).1) d hnb (by omega)
    refine ⟨fun h => absurd h hnotgt, fun _ => ⟨hfa, ?_, ?_⟩, ?_⟩
    · rw [hfa]; exact hrs.2.1
    · rw [hfa]; exact hrs.2.2
    · rw [hfa, bracesOutside_plain_fst hrs.1, bracesOutside_plain_snd hrs.1,
        hrs.2.1, hrs.2.2]
      omega
  · -- O = C : identity branch
    have h1 : ¬((bracesOutside d).1 > (bracesOutside d).2) := by omega
    have h2 : ¬((bracesOutside d).2 > (bracesOutside d).1) := by omega
    have hfix1 : LatexAutoFixer.fix_brace_imbalance d = (d, []) := by
      rw [LatexAutoFixer.fix_brace_imbalance]
      rw [if_neg h1, if_neg h2]
    have hfa : (LatexAutoFixer.fix_brace_imbalance d).1 = d := by rw [hfix1]
    refine ⟨fun h => absurd h h1, fun h => absurd h h2, ?_⟩
    rw [hfa]
    omega
  · -- O > C : insertion branch
    have hO : (bracesOutside d).1 > (bracesOutside d).2 := by omega
    rcases countSub_one_decomp docEnd
        (List.replicate ((bracesOutside d).1 - (bracesOutside d).2) '}' ++ '\n' :: docEnd)
        (by decide) d.length d le_rfl hone with ⟨b, a, hd, h0a, hrep⟩
    have hfa : (LatexAutoFixer.fix_brace_imbalance d).1 =
        b ++ (List.replicate ((bracesOutside d).1 - (bracesOutside d).2) '}' ++
          '\n' :: docEnd) ++ a := by
      rw [LatexAutoFixer.fix_brace_imbalance]
      rw [if_pos hO]
      simp only [hcont, if_true]
      exact hrep
    have hdge : 1 ≤ (bracesOutside d).1 - (bracesOutside d).2 := by omega
    have hd2 : d = b ++ (docEnd ++ a) := by
      rw [hd, List.append_assoc]
    have hbb : containsB begLst b = false := by
      have h0 := hbeg
      rw [hd2] at h0
      exact containsB_false_of_append_left h0
    have hba : containsB begLst a = false := by
      have h0 := hbeg
      rw [hd] at h0
      exact containsB_false_of_append_right h0
    have heb : containsB endLst b = false := by
      have h0 := hend
      rw [hd2] at h0
      exact containsB_false_of_append_left h0
    have hea : containsB endLst a = false := by
      have h0 := hend
      rw [hd] at h0
      exact containsB_false_of_append_right h0
    have hplain := insertion_plain hdge hbb hba heb hea
    have hq1 : (bracesOutside (b ++ (List.replicate ((bracesOutside d).1 -
        (bracesOutside d).2) '}' ++ '\n' :: docEnd) ++ a)).1 =
        (b ++ (List.replicate ((bracesOutside d).1 - (bracesOutside d).2) '}' ++
          '\n' :: docEnd) ++ a).count '{' := by
      rw [hplain]
    have hq2 : (bracesOutside (b ++ (List.replicate ((bracesOutside d).1 -
        (bracesOutside d).2) '}' ++ '\n' :: docEnd) ++ a)).2 =
        (b ++ (List.replicate ((bracesOutside d).1 - (bracesOutside d).2) '}' ++
          '\n' :: docEnd) ++ a).count '}' := by
      rw [hplain]
    have hdc1 : List.count '{' docEnd = 1 := by decide
    have hdc2 : List.count '}' docEnd = 1 := by decide
    have hco : d.count '{' = b.count '{' + 1 + a.count '{' := by
      rw [hd]
      simp only [List.count_append, hdc1]
    have hcc : d.count '}' = b.count '}' + 1 + a.count '}' := by
      rw [hd]
      simp only [List.count_append, hdc2]
    refine ⟨fun _ => ⟨b, a, hd, hfa⟩,
      fun h => absurd h (by omega), ?_⟩
    rw [hfa, hq1, hq2]
    simp only [List.count_append, List.count_cons, List.count_replicate, hdc1, hdc2]
    simp only [show (('}' : Char) == '{') = false from by decide,
      show (('{' : Char) == '{') = true from by decide,
      show (('}' : Char) == '}') = true from by decide,
      show (('\n' : Char) == '{') = false from by decide,
      show (('\n' : Char) == '}') = false from by decide]
    simp only [if_true, if_false, Bool.false_eq_true]
    omega

/-- C4 (counterexample): four documents on which the brace-balance rule leaves
the structural counts unequal, one per failure mode.  `twoMarkerDoc` (two
terminal markers, no listing text): `str.replace` inserts the deficit before
both occurrences, so counts go from (3,2) to (3,4).  `regionMarkerDoc` (unique
terminal marker inside a complete listing region): the insertion lands inside
the excluded region and the counts stay (1,0).  `begOnlyDoc` (unique marker; a
complete begin-listing marker, no end-listing marker): the inserted braces
complete an end-listing marker and the new excluded region swallows counted
braces, (4,2) to (1,2).  `endOnlyDoc` (unique marker; a complete end-listing
marker, no begin-listing marker): the inserted braces complete a begin-listing
marker, (5,2) to (2,0).  Together they force each hypothesis of the amended
theorem, and the last two show that excluding only documents whose unique
marker lies inside a region would not suffice. -/
theorem c4_counterexample :
    ((bracesOutside twoMarkerDoc).1 > (bracesOutside twoMarkerDoc).2 ∧
      (bracesOutside (LatexAutoFixer.fix_brace_imbalance twoMarkerDoc).1).1 ≠
        (bracesOutside (LatexAutoFixer.fix_brace_imbalance twoMarkerDoc).1).2) ∧
    (countSub docEnd regionMarkerDoc = 1 ∧
      (bracesOutside regionMarkerDoc).1 > (bracesOutside regionMarkerDoc).2 ∧
      (bracesOutside (LatexAutoFixer.fix_brace_imbalance regionMarkerDoc).1).1 ≠
        (bracesOutside (LatexAutoFixer.fix_brace_imbalance regionMarkerDoc).1).2) ∧
    (countSub docEnd begOnlyDoc = 1 ∧ containsB endLst begOnlyDoc = false ∧
      (bracesOutside begOnlyDoc).1 > (bracesOutside begOnlyDoc).2 ∧
      (bracesOutside (LatexAutoFixer.fix_brace_imbalance begOnlyDoc).1).1 ≠
        (bracesOutside (LatexAutoFixer.fix_brace_imbalance begOnlyDoc).1).2) ∧
    (countSub docEnd endOnlyDoc = 1 ∧ containsB begLst endOnlyDoc = false ∧
      (bracesOutside endOnlyDoc).1 > (bracesOutside endOnlyDoc).2 ∧
      (bracesOutside (LatexAutoFixer.fix_brace_imbalance endOnlyDoc).1).1 ≠
        (bracesOutside (LatexAutoFixer.fix_brace_imbalance endOnlyDoc).1).2) := by
  decide

/-- Witness for `c4_brace_balance_amended` at `c4WitnessDoc`. -/
theorem c4_witness :
    (bracesOutside (LatexAutoFixer.fix_brace_imbalance c4WitnessDoc).1).1 =
      (bracesOutside (LatexAutoFixer.fix_brace_imbalance c4WitnessDoc).1).2 :=
  (c4_brace_balance_amended c4WitnessDoc (by decide) (by decide) (by decide)).2.2

/-! ### Claim C5 -/

theorem processEnds_eq_foldl : ∀ (es : List Str) (st : List Str),
    processEnds st es = es.foldl
      (fun st e =>
        match st with
        | [] => []
        | h :: t => if e = h then t else h :: t) st
  | [], st => by cases st <;> rfl
  | e :: es, [] => by
    simp only [processEnds, List.foldl_cons]
    exact processEnds_eq_foldl es []
  | e :: es, h :: t => by
    by_cases he : e = h
    · simp only [processEnds, List.foldl_cons, if_pos he]
      exact processEnds_eq_foldl es t
    · simp only [processEnds, List.foldl_cons, if_neg he]
      exact processEnds_eq_foldl es (h :: t)

/-- C5 (amended): when the terminal marker is absent, the truncation fix closes
exactly the blocks computed by the two-phase reconstruction (push the kinds of
all begin markers in document order, then scan all end markers in document
order, popping only when the kind equals the top), innermost first, and then
appends the terminal marker; for nested unmatched opens [A, B, C] the closers
are appended in order C, B, A before the terminal marker. -/
theorem c5_truncation_amended :
    (∀ code, containsB docEnd code = false →
      LatexAutoFixer.fix_truncated_document code =
        (code ++ ((twoPhaseOpen code).map
            (fun env => '\n' :: endTok ++ env ++ ['\x7d'])).flatten ++ '\n' :: docEnd,
         (twoPhaseOpen code).map (fun env => "Closed unclosed environment: ".data ++ env)
           ++ ["Added missing \\end{document}".data]))
    ∧ LatexAutoFixer.fix_truncated_document ("\\begin{A}\\begin{B}\\begin{C}x".data) =
        ("\\begin{A}\\begin{B}\\begin{C}x".data ++
           "\n\\end{C}\n\\end{B}\n\\end{A}\n\\end{document}".data,
         ["Closed unclosed environment: C".data, "Closed unclosed environment: B".data,
          "Closed unclosed environment: A".data, "Added missing \\end{document}".data]) := by
  constructor
  · intro code h
    rw [LatexAutoFixer.fix_truncated_document, if_neg (by simp [h]), twoPhaseOpen,
      ← processEnds_eq_foldl]
  · decide

/-- C5 (counterexample): the claim's document-order LIFO pairing leaves only B
open, but the source scans all begin markers first, so the end marker for A
sees B on top of the stack and pops nothing; the repaired text closes both B
and A and therefore differs from the claim's prediction. -/
theorem c5_counterexample :
    specLifoOpenAux 0 [] interleavedDoc = ["B".data] ∧
    (LatexAutoFixer.fix_truncated_document interleavedDoc).1 ≠
      specFixTruncated interleavedDoc := by
  decide

/-- Witness for `c5_truncation_amended` at `interleavedDoc`. -/
theorem c5_witness :
    LatexAutoFixer.fix_truncated_document interleavedDoc =
      (interleavedDoc ++ ((twoPhaseOpen interleavedDoc).map
          (fun env => '\n' :: endTok ++ env ++ ['\x7d'])).flatten ++ '\n' :: docEnd,
       (twoPhaseOpen interleavedDoc).map
           (fun env => "Closed unclosed environment: ".data ++ env)
         ++ ["Added missing \\end{document}".data]) :=
  c5_truncation_amended.1 interleavedDoc (by decide)

/-! ### Claim C3 -/

theorem ensure_document_structure_id {d : Str}
    (h2 : containsB docClassTok d = true) (h3 : containsB beginDocTok d = true) :
    LatexAutoFixer.ensure_document_structure d = (d, []) := by
  rw [LatexAutoFixer.ensure_document_structure]
  simp [h2, h3]

theorem fix_lstlisting_id {d : Str} (h : countSub begLst d = countSub endLst d) :
    LatexAutoFixer.fix_lstlisting_issues d = (d, []) := by
  rw [LatexAutoFixer.fix_lstlisting_issues, if_neg (by omega)]

theorem fix_tabularx_id {d : Str}
    (h1 : countSub LatexAutoFixer.begTabx d = countSub LatexAutoFixer.endTabx d)
    (h2 : countSub LatexAutoFixer.begLong d = countSub LatexAutoFixer.endLong d) :
    LatexAutoFixer.fix_tabularx_issues d = (d, []) := by
  rw [LatexAutoFixer.fix_tabularx_issues]
  simp only [if_neg (show ¬(countSub LatexAutoFixer.begTabx d >
    countSub LatexAutoFixer.endTabx d) from by omega)]
  rw [if_neg (by omega)]

theorem fix_description_id {d : Str}
    (h : countSub LatexAutoFixer.begDesc d = countSub LatexAutoFixer.endDesc d) :
    LatexAutoFixer.fix_description_issues d = (d, []) := by
  rw [LatexAutoFixer.fix_description_issues, if_neg (by omega)]

theorem fix_multicol_id {d : Str}
    (h : countSub LatexAutoFixer.begMulti d = countSub LatexAutoFixer.endMulti d) :
    LatexAutoFixer.fix_multicol_issues d = (d, []) := by
  rw [LatexAutoFixer.fix_multicol_issues, if_neg (by omega)]

theorem fix_brace_id {d : Str} (h : (bracesOutside d).1 = (bracesOutside d).2) :
    LatexAutoFixer.fix_brace_imbalance d = (d, []) := by
  rw [LatexAutoFixer.fix_brace_imbalance]
  rw [if_neg (by omega), if_neg (by omega)]

theorem fix_truncated_id {d : Str} (h : containsB docEnd d = true) :
    LatexAutoFixer.fix_truncated_document d = (d, []) := by
  rw [LatexAutoFixer.fix_truncated_document, if_pos h]

/-- C3: on a document that already has the terminal marker, a class
declaration, a begin-document marker, balanced structural braces, and equal
begin/end counts for every heavy block kind, the repair engine with an empty
diagnostic is the identity and reports no fixes. -/
theorem c3_repair_identity (d : Str)
    (h1 : containsB docEnd d = true)
    (h2 : containsB docClassTok d = true)
    (h3 : containsB beginDocTok d = true)
    (h4 : (bracesOutside d).1 = (bracesOutside d).2)
    (h5 : countSub begLst d = countSub endLst d)
    (h6 : countSub LatexAutoFixer.begTabx d = countSub LatexAutoFixer.endTabx d)
    (h7 : countSub LatexAutoFixer.begLong d = countSub LatexAutoFixer.endLong d)
    (h8 : countSub LatexAutoFixer.begDesc d = countSub LatexAutoFixer.endDesc d)
    (h9 : countSub LatexAutoFixer.begMulti d = countSub LatexAutoFixer.endMulti d) :
    LatexAutoFixer.comprehensive_fix d [] = (d, []) := by
  rw [LatexAutoFixer.comprehensive_fix]
  simp only [ensure_document_structure_id h2 h3, fix_lstlisting_id h5,
    fix_tabularx_id h6 h7, fix_description_id h8, fix_multicol_id h9,
    fix_brace_id h4, fix_truncated_id h1,
    show searchPkgMissing [] = none from rfl,
    show searchEnvUndefined [] = none from rfl, List.append_nil, List.nil_append]

/-- Witness for `c3_repair_identity`. -/
theorem c3_witness :
    LatexAutoFixer.comprehensive_fix c3WitnessDoc [] = (c3WitnessDoc, []) :=
  c3_repair_identity c3WitnessDoc (by decide) (by decide) (by decide) (by decide)
    (by decide) (by decide) (by decide) (by decide) (by decide)

/-! ### Claim C8 -/

theorem fix_truncated_contains_docEnd (y : Str) :
    containsB docEnd (LatexAutoFixer.fix_truncated_document y).1 = true := by
  rw [LatexAutoFixer.fix_truncated_document]
  cases h : containsB docEnd y with
  | true => simpa using h
  | false =>
    simp only [h, Bool.false_eq_true, if_false]
    exact containsB_append_right _ (by decide)

/-- C8 (amended): the truncation fix is the last *unconditional* rule of the
pipeline; the two diagnostic-driven rules that follow it fire only when their
pattern matches the diagnostic.  On any diagnostic matching neither pattern —
in particular on the empty diagnostic of the pre-pass — every returned
document contains the terminal marker. -/
theorem c8_truncation_last_amended (code log : Str)
    (hp : searchPkgMissing log = none) (he : searchEnvUndefined log = none) :
    containsB docEnd (LatexAutoFixer.comprehensive_fix code log).1 = true := by
  rw [LatexAutoFixer.comprehensive_fix]
  simp only [hp, he]
  exact fix_truncated_contains_docEnd _

/-- Witness for `c8_truncation_last_amended` at the empty document and the
empty pre-pass diagnostic. -/
theorem c8_witness :
    containsB docEnd (LatexAutoFixer.comprehensive_fix [] []).1 = true :=
  c8_truncation_last_amended [] [] rfl rfl

/-- C8 (counterexample): the diagnostic-driven undefined-environment rule runs
*after* the truncation fix; when the extracted kind is `document` it rewrites
`\end{document}` into the verbatim placeholder, so the returned document lacks
the terminal marker. -/
theorem c8_counterexample :
    containsB docEnd
      (LatexAutoFixer.comprehensive_fix undefinedDocEnvDoc undefinedDocEnvLog).1 = false := by
  decide

/-! ### The orchestrator: loop invariant -/

theorem loopOut_mk_result (r : RunFinish) (e : List Event) (c : Nat) :
    (CompilationWorker.LoopOut.mk r e c).result = r := rfl

theorem loopOut_mk_events (r : RunFinish) (e : List Event) (c : Nat) :
    (CompilationWorker.LoopOut.mk r e c).events = e := rfl

theorem loopOut_mk_calls (r : RunFinish) (e : List Event) (c : Nat) :
    (CompilationWorker.LoopOut.mk r e c).calls = c := rfl

theorem runFinish_mk_success (s : Bool) (p e : Str) (f : List Str) :
    (RunFinish.mk s p e f).success = s := rfl

theorem runFinish_mk_pdfPath (s : Bool) (p e : Str) (f : List Str) :
    (RunFinish.mk s p e f).pdfPath = p := rfl

theorem runFinish_mk_error (s : Bool) (p e : Str) (f : List Str) :
    (RunFinish.mk s p e f).error = e := rfl

theorem runFinish_mk_fixes (s : Bool) (p e : Str) (f : List Str) :
    (RunFinish.mk s p e f).fixes = f := rfl

theorem runLoop_spec (autofix : Bool) (oracle : Nat → Outcome) :
    ∀ (fuel attempt : Nat) (code : Str) (fixes : List Str),
      fuel + attempt = CompilationWorker.MAX_FIX_ATTEMPTS + 1 → 1 ≤ fuel →
      LoopInv oracle attempt fixes fuel
        (CompilationWorker.runLoop autofix oracle fuel attempt code fixes)
  | 0, _, _, _, _, h2 => by omega
  | fuel + 1, attempt, code, fixes, hinv, _ => by
    rw [LoopInv]
    cases horacle : oracle attempt with
    | ok pdf =>
      simp only [CompilationWorker.runLoop, horacle, loopOut_mk_result, loopOut_mk_events,
        loopOut_mk_calls, runFinish_mk_success, runFinish_mk_pdfPath, runFinish_mk_error,
        runFinish_mk_fixes]
      refine ⟨⟨[.progress (CompilationWorker.compilingMsg attempt),
          .progress ("Done!".data)], rfl, ?_⟩, ⟨[], by simp⟩, by omega, by omega, ?_, ?_⟩
      · intro e he
        simp only [List.mem_cons, List.not_mem_nil, or_false] at he
        rcases he with rfl | rfl <;> rfl
      · intro hfalse
        exact absurd hfalse (by simp)
      · intro _
        rw [show attempt + 1 - 1 = attempt from by omega]
        exact horacle
    | fail err =>
      cases hcond : (!autofix || decide (attempt ≥ CompilationWorker.MAX_FIX_ATTEMPTS)) with
      | true =>
        simp only [CompilationWorker.runLoop, horacle, hcond, if_true, loopOut_mk_result,
          loopOut_mk_events, loopOut_mk_calls, runFinish_mk_success, runFinish_mk_pdfPath,
          runFinish_mk_error, runFinish_mk_fixes]
        refine ⟨⟨[.progress (CompilationWorker.compilingMsg attempt)], rfl, ?_⟩,
          ⟨[], by simp⟩, by omega, by omega, ?_, ?_⟩
        · intro e he
          simp only [List.mem_cons, List.not_mem_nil, or_false] at he
          rcases he with rfl
          rfl
        · intro _
          rw [show attempt + 1 - 1 = attempt from by omega]
          exact horacle
        · intro htrue
          exact absurd htrue (by simp)
      | false =>
        cases hconv : (decide ((LatexAutoFixer.comprehensive_fix code err).1 = code) ||
            decide ((LatexAutoFixer.comprehensive_fix code err).2 = [])) with
        | true =>
          simp only [CompilationWorker.runLoop, horacle, hcond, Bool.false_eq_true, if_false,
            hconv, if_true, loopOut_mk_result, loopOut_mk_events, loopOut_mk_calls,
            runFinish_mk_success, runFinish_mk_pdfPath, runFinish_mk_error, runFinish_mk_fixes]
          refine ⟨⟨[.progress (CompilationWorker.compilingMsg attempt),
              .progress (CompilationWorker.analyzingMsg attempt)], rfl, ?_⟩,
            ⟨[], by simp⟩, by omega, by omega, ?_, ?_⟩
          · intro e he
            simp only [List.mem_cons, List.not_mem_nil, or_false] at he
            rcases he with rfl | rfl <;> rfl
          · intro _
            rw [show attempt + 1 - 1 = attempt from by omega]
            exact horacle
          · intro htrue
            exact absurd htrue (by simp)
        | false =>
          have hlt : attempt < CompilationWorker.MAX_FIX_ATTEMPTS := by
            rcases Bool.or_eq_false_iff.mp hcond with ⟨-, h2⟩
            simpa using of_decide_eq_false h2
          have hfuel : 1 ≤ fuel := by omega
          have ih := runLoop_spec autofix oracle fuel (attempt + 1)
            (LatexAutoFixer.comprehensive_fix code err).1
            (fixes ++ (LatexAutoFixer.comprehensive_fix code err).2)
            (by omega) hfuel
          rw [LoopInv] at ih
          rcases ih with ⟨⟨pre, hpre, hprenf⟩, ⟨ext, hext⟩, hc1, hc2, hfail, hok⟩
          simp only [CompilationWorker.runLoop, horacle, hcond, Bool.false_eq_true, if_false,
            hconv, loopOut_mk_result, loopOut_mk_events, loopOut_mk_calls]
          refine ⟨⟨.progress (CompilationWorker.compilingMsg attempt) ::
              .progress (CompilationWorker.analyzingMsg attempt) :: pre, ?_, ?_⟩,
            ⟨(LatexAutoFixer.comprehensive_fix code err).2 ++ ext, ?_⟩,
            by omega, by omega, ?_, ?_⟩
          · rw [hpre]
            rfl
          · intro e he
            simp only [List.mem_cons] at he
            rcases he with rfl | rfl | he
            · rfl
            · rfl
            · exact hprenf e he
          · rw [hext, List.append_assoc]
          · intro hf
            rw [show attempt + ((CompilationWorker.runLoop autofix oracle fuel (attempt + 1)
                  (LatexAutoFixer.comprehensive_fix code err).1
                  (fixes ++ (LatexAutoFixer.comprehensive_fix code err).2)).calls + 1) - 1 =
                attempt + 1 + (CompilationWorker.runLoop autofix oracle fuel (attempt + 1)
                  (LatexAutoFixer.comprehensive_fix code err).1
                  (fixes ++ (LatexAutoFixer.comprehensive_fix code err).2)).calls - 1
              from by omega]
            exact hfail hf
          · intro ht
            rw [show attempt + ((CompilationWorker.runLoop autofix oracle fuel (attempt + 1)
                  (LatexAutoFixer.comprehensive_fix code err).1
                  (fixes ++ (LatexAutoFixer.comprehensive_fix code err).2)).calls + 1) - 1 =
                attempt + 1 + (CompilationWorker.runLoop autofix oracle fuel (attempt + 1)
                  (LatexAutoFixer.comprehensive_fix code err).1
                  (fixes ++ (LatexAutoFixer.comprehensive_fix code err).2)).calls - 1
              from by omega]
            exact hok ht

theorem runWorker_calls (autofix : Bool) (oracle : Nat → Outcome) (code : Str) :
    (CompilationWorker.runWorker autofix oracle code).calls =
      (CompilationWorker.runLoop autofix oracle (CompilationWorker.MAX_FIX_ATTEMPTS + 1) 0
        (CompilationWorker.prePassCode autofix code)
        (CompilationWorker.prePassFixes autofix code)).calls := rfl

theorem runWorker_result (autofix : Bool) (oracle : Nat → Outcome) (code : Str) :
    (CompilationWorker.runWorker autofix oracle code).result =
      (CompilationWorker.runLoop autofix oracle (CompilationWorker.MAX_FIX_ATTEMPTS + 1) 0
        (CompilationWorker.prePassCode autofix code)
        (CompilationWorker.prePassFixes autofix code)).result := rfl

/-- C1: under a toolchain that fails on every invocation with diagnostics that
match no diagnostic-driven rule, the orchestrator performs at most
`MAX_FIX_ATTEMPTS + 1` compile invocations (the default bound is 5, hence at
most 6) and emits a failure result. -/
theorem c1_bounded_retries (autofix : Bool) (oracle : Nat → Outcome) (code : Str)
    (hfail : ∀ k, ∃ e, oracle k = .fail e)
    (_hnomatch : ∀ k e, oracle k = .fail e →
      searchPkgMissing e = none ∧ searchEnvUndefined e = none) :
    (CompilationWorker.runWorker autofix oracle code).calls ≤
        CompilationWorker.MAX_FIX_ATTEMPTS + 1
    ∧ CompilationWorker.MAX_FIX_ATTEMPTS = 5
    ∧ (CompilationWorker.runWorker autofix oracle code).result.success = false := by
  have h := runLoop_spec autofix oracle (CompilationWorker.MAX_FIX_ATTEMPTS + 1) 0
    (CompilationWorker.prePassCode autofix code)
    (CompilationWorker.prePassFixes autofix code) (by omega) (by omega)
  rw [LoopInv] at h
  rcases h with ⟨-, -, -, hc2, -, hok⟩
  refine ⟨by rw [runWorker_calls]; exact hc2, rfl, ?_⟩
  rw [runWorker_result]
  cases hs : (CompilationWorker.runLoop autofix oracle
      (CompilationWorker.MAX_FIX_ATTEMPTS + 1) 0
      (CompilationWorker.prePassCode autofix code)
      (CompilationWorker.prePassFixes autofix code)).result.success with
  | false => rfl
  | true =>
    rcases hfail (0 + (CompilationWorker.runLoop autofix oracle
        (CompilationWorker.MAX_FIX_ATTEMPTS + 1) 0
        (CompilationWorker.prePassCode autofix code)
        (CompilationWorker.prePassFixes autofix code)).calls - 1) with ⟨e, he⟩
    have hk := hok hs
    rw [he] at hk
    exact Outcome.noConfusion hk

/-- Witness for `c1_bounded_retries`. -/
theorem c1_witness :
    (CompilationWorker.runWorker true alwaysFailOracle []).calls ≤
        CompilationWorker.MAX_FIX_ATTEMPTS + 1
    ∧ CompilationWorker.MAX_FIX_ATTEMPTS = 5
    ∧ (CompilationWorker.runWorker true alwaysFailOracle []).result.success = false :=
  c1_bounded_retries true alwaysFailOracle [] (fun _ => ⟨['x'], rfl⟩)
    (fun _ e he => by
      rcases Outcome.fail.injEq .. ▸ he with rfl
      exact ⟨rfl, rfl⟩)

/-! ### Claim C2 -/

/-- C2: when an attempt fails and the repair engine returns the document
textually unchanged or produces zero fix records, the orchestrator emits the
failure result at once: exactly one compile call is made from that attempt on,
regardless of the remaining budget (`attempt` may be far below the bound), and
the emitted payload carries the diagnostic and the previously accumulated
fixes. -/
theorem c2_convergence_short_circuit (oracle : Nat → Outcome)
    (fuel attempt : Nat) (code : Str) (fixes : List Str) (err : Str)
    (hfuel : 1 ≤ fuel) (hbudget : attempt < CompilationWorker.MAX_FIX_ATTEMPTS)
    (hfail : oracle attempt = .fail err)
    (hconv : (LatexAutoFixer.comprehensive_fix code err).1 = code ∨
      (LatexAutoFixer.comprehensive_fix code err).2 = []) :
    CompilationWorker.runLoop true oracle fuel attempt code fixes =
      ⟨⟨false, [], err, fixes⟩,
       [.progress (CompilationWorker.compilingMsg attempt),
        .progress (CompilationWorker.analyzingMsg attempt),
        .finished ⟨false, [], err, fixes⟩], 1⟩ := by
  match fuel, hfuel with
  | f + 1, _ =>
    have hcond : (!true || decide (attempt ≥ CompilationWorker.MAX_FIX_ATTEMPTS)) = false := by
      simp only [Bool.not_true, Bool.false_or, decide_eq_false_iff_not]
      omega
    have hconvb : (decide ((LatexAutoFixer.comprehensive_fix code err).1 = code) ||
        decide ((LatexAutoFixer.comprehensive_fix code err).2 = [])) = true := by
      rcases hconv with h | h <;> simp [h]
    simp only [CompilationWorker.runLoop, hfail, hcond, Bool.false_eq_true, if_false,
      hconvb, if_true]

/-- Witness for `c2_convergence_short_circuit`: budget for three more
iterations remains, yet exactly one compile call is made. -/
theorem c2_witness :
    CompilationWorker.runLoop true c2Oracle 3 0 c3WitnessDoc [] =
      ⟨⟨false, [], ['x'], []⟩,
       [.progress (CompilationWorker.compilingMsg 0),
        .progress (CompilationWorker.analyzingMsg 0),
        .finished ⟨false, [], ['x'], []⟩], 1⟩ :=
  c2_convergence_short_circuit c2Oracle 3 0 c3WitnessDoc [] ['x'] (by omega) (by decide)
    rfl (by decide)

/-! ### Claim C7 -/

/-- C6 (counterexample): with the binary missing on every call and autofix
enabled, the worker applies the repair engine to the fixed failure message and
retries — two toolchain invocations occur, so the failure is not "fatal
immediately, no retry, no repair". -/
theorem c6_counterexample :
    (CompilationWorker.runWorker true missingOracle nonConvergentDoc).calls = 2 ∧
    (CompilationWorker.runWorker true missingOracle nonConvergentDoc).result.success = false ∧
    (CompilationWorker.runWorker true missingOracle nonConvergentDoc).result.error =
      CompilationWorker.toolchainMissingMsg := by
  decide

/-- C6 (amended): when the binary cannot be located, every attempt fails with
the fixed explanatory message, so the request always finishes with failure
carrying that message; with autofix disabled no retry is made (exactly one
toolchain invocation).  With autofix enabled the failure message is fed to the
repair engine like any other diagnostic, and retries occur until the repairs
converge or the budget is exhausted. -/
theorem c6_toolchain_missing_amended (autofix : Bool) (oracle : Nat → Outcome) (code : Str)
    (h : ∀ k, oracle k = .fail CompilationWorker.toolchainMissingMsg) :
    (CompilationWorker.runWorker autofix oracle code).result.success = false
    ∧ (CompilationWorker.runWorker autofix oracle code).result.error =
        CompilationWorker.toolchainMissingMsg
    ∧ (autofix = false → (CompilationWorker.runWorker autofix oracle code).calls = 1) := by
  have hs := runLoop_spec autofix oracle (CompilationWorker.MAX_FIX_ATTEMPTS + 1) 0
    (CompilationWorker.prePassCode autofix code)
    (CompilationWorker.prePassFixes autofix code) (by omega) (by omega)
  rw [LoopInv] at hs
  rcases hs with ⟨-, -, -, -, hfl, hok⟩
  have hsucc : (CompilationWorker.runLoop autofix oracle
      (CompilationWorker.MAX_FIX_ATTEMPTS + 1) 0
      (CompilationWorker.prePassCode autofix code)
      (CompilationWorker.prePassFixes autofix code)).result.success = false := by
    cases hs2 : (CompilationWorker.runLoop autofix oracle
        (CompilationWorker.MAX_FIX_ATTEMPTS + 1) 0
        (CompilationWorker.prePassCode autofix code)
        (CompilationWorker.prePassFixes autofix code)).result.success with
    | false => rfl
    | true =>
      have hk := hok hs2
      rw [h _] at hk
      exact Outcome.noConfusion hk
  refine ⟨by rw [runWorker_result]; exact hsucc, ?_, ?_⟩
  · have hk := hfl hsucc
    rw [h _] at hk
    rw [runWorker_result]
    have := Outcome.fail.injEq .. ▸ hk
    exact this.symm
  · rintro rfl
    have hcond : (!false || decide (0 ≥ CompilationWorker.MAX_FIX_ATTEMPTS)) = true := by
      simp
    rw [runWorker_calls]
    simp only [CompilationWorker.runLoop, h 0, hcond, if_true, loopOut_mk_calls]

/-- Witness for `c6_toolchain_missing_amended`: autofix disabled, one call. -/
theorem c6_witness :
    (CompilationWorker.runWorker false missingOracle []).result.success = false
    ∧ (CompilationWorker.runWorker false missingOracle []).result.error =
        CompilationWorker.toolchainMissingMsg
    ∧ (false = false → (CompilationWorker.runWorker false missingOracle []).calls = 1) :=
  c6_toolchain_missing_amended false missingOracle [] (fun _ => rfl)

/-! ### Claim C9 -/

/-- C9 (counterexample): in draft mode with no log file, the outcome *is*
decided by artifact existence — with a (stale) artifact present the call
reports success, without one failure — contradicting "determined by inspecting
the log rather than by the existence of an output artifact". -/
theorem c9_counterexample :
    CompilationWorker.compileOutcome true false [] true ['p'] ['e'] = .ok ['p'] ∧
    CompilationWorker.compileOutcome true false [] false ['p'] ['e'] = .fail ['e'] := by
  decide

/-- C9 (amended): in draft mode, whenever the toolchain produced a log file the
outcome depends only on the log content — success iff the log carries the
no-output signal, lacks the output-written signal, or lacks the error
marker — and a draft success carries no artifact path; artifact existence
never enters.  (Without a log the generic artifact-existence check of the
non-draft path applies, per the counterexample.) -/
theorem c9_draft_mode_amended (log : Str) (pe1 pe2 : Bool) (pf ex : Str) :
    CompilationWorker.compileOutcome true true log pe1 pf ex =
      CompilationWorker.compileOutcome true true log pe2 pf ex
    ∧ CompilationWorker.compileOutcome true true log pe1 pf ex =
        (if containsB ("No pages of output".data) log
            || !containsB ("Output written".data) log
            || !containsB ['!'] log
         then .ok [] else .fail ex) := by
  simp only [CompilationWorker.compileOutcome]
  cases h1 : containsB ("No pages of output".data) log <;>
    cases h2 : containsB ("Output written".data) log <;>
      cases h3 : containsB ['!'] log <;>
        simp [h1, h2, h3]

/-! ### Claim C10 -/

/-- C10: a failed request leaves the facade's stored artifact path unchanged —
`_on_finished` writes `last_pdf_path` only on success — so after a failed
request `get_last_pdf_path` returns what it returned before, a successful
request overwrites it with the new artifact, and initially it is `None`. -/
theorem c10_last_pdf_frame (st : Option Str) (p q : Str) (rs : List (Bool × Str)) :
    LatexCompiler.onFinished st false p = st
    ∧ LatexCompiler.lastPdfAfter (rs ++ [(false, p)]) = LatexCompiler.lastPdfAfter rs
    ∧ LatexCompiler.lastPdfAfter (rs ++ [(true, q)]) = some q
    ∧ LatexCompiler.lastPdfAfter [] = none := by
  refine ⟨rfl, ?_, ?_, rfl⟩ <;>
    simp [LatexCompiler.lastPdfAfter, LatexCompiler.onFinished, List.foldl_append]
